import Mathlib

/-!
Verification of the massif-combine tool (`src/massif-combine.cpp`).

The development embeds the core of the program: the line-oriented snapshot
parser `MassifFile::appendFile` (a five-state machine over raw input lines),
the multi-source combiner `MassifFile::add`, and the serializer
`MassifFile::write` (sort by time, renumber, emit).  Regex matching is
embedded by hand: the three patterns used by the program are all simple
(anchored keyword alternation, literal-plus-digits search), so they are
modelled as executable functions on character lists.
-/

namespace MassifCombine

/-- One profiler sample: `Snapshot` from the source (`int time` is
value-initialized to 0 by `make_shared`; `\d+` only yields non-negative
values, so `time` is modelled as `Nat`). -/
structure Snapshot where
  time : Nat
  contents : List String
deriving DecidableEq, Repr

/-- The document: `MassifFile`'s data members `headers` and `snapshots`. -/
structure MassifFile where
  headers : List String
  snapshots : List Snapshot
deriving DecidableEq, Repr

/-- The parser's `LastLine` state enumeration. -/
inductive LastLine where
  | HEADER
  | SNAPSHOT_MARK
  | SNAPSHOT_NAME
  | SNAPSHOT_CONTENT
  | NONE
deriving DecidableEq, Repr

/-- The delimiter literal `snapshot_mark`. -/
def snapshotMark : String := "#-----------"

/-- Strip a literal pattern from the front of a character list; `some rest`
on success.  Used to embed the literal parts of the program's regexes. -/
def dropLit : List Char → List Char → Option (List Char)
  | [], cs => some cs
  | _ :: _, [] => none
  | p :: ps, c :: cs => if c = p then dropLit ps cs else none

/-- The test `regex_search(str, "^(desc|cmd|time_unit):")`: the pattern is anchored,
so it holds exactly when the line starts with one of the three keywords. -/
def isKeyword (s : String) : Bool :=
  (dropLit "desc:".data s.data).isSome ||
  (dropLit "cmd:".data s.data).isSome ||
  (dropLit "time_unit:".data s.data).isSome

/-- Does `snapshot=\d+` match at the head of the character list? -/
def snapNameAt (cs : List Char) : Bool :=
  match dropLit "snapshot=".data cs with
  | some (d :: _) => d.isDigit
  | _ => false

/-- Unanchored search for `snapshot=\d+` over a character list. -/
def snapNameSearch : List Char → Bool
  | [] => false
  | c :: cs => snapNameAt (c :: cs) || snapNameSearch cs

/-- The test `regex_search(str, "snapshot=\d+")`. -/
def hasSnapshotName (s : String) : Bool := snapNameSearch s.data

/-- Value of a digit string (the semantics of `stoi` on the `\d+` capture). -/
def digitsVal (ds : List Char) : Nat :=
  ds.foldl (fun a c => a * 10 + (c.toNat - 48)) 0

/-- Try to match `time=(\d+)` at the head of the character list, returning
the captured value. -/
def timeAt (cs : List Char) : Option Nat :=
  match dropLit "time=".data cs with
  | some rest =>
    let ds := rest.takeWhile Char.isDigit
    if ds.isEmpty then none else some (digitsVal ds)
  | none => none

/-- Leftmost match of `time=(\d+)`, as `regex_search` finds it. -/
def timeSearch : List Char → Option Nat
  | [] => none
  | c :: cs =>
    match timeAt (c :: cs) with
    | some v => some v
    | none => timeSearch cs

/-- The search `regex_search(str, match, "time=(\d+)")` followed by `stoi(match[1])`. -/
def timeOf (s : String) : Option Nat := timeSearch s.data

/-- Parser state inside `appendFile`: the `status` variable, the pending
`snapshot` shared pointer, and the `MassifFile` being mutated. -/
structure PState where
  status : LastLine
  pending : Option Snapshot
  doc : MassifFile
deriving Repr

/-- One iteration of `appendFile`'s `while (std::getline...)` loop.
`.error (doc, code)` models the early `return 2` branches (the document
mutated so far is kept, as in the C++ member function). -/
def stepLine (ignoreHeader : Bool) (st : PState) (line : String) :
    Except (MassifFile × Int) PState :=
  if isKeyword line then
    .ok { st with
          status := .HEADER
          doc := { st.doc with headers :=
            if ignoreHeader then st.doc.headers else st.doc.headers ++ [line] } }
  else if (st.status = .HEADER ∨ st.status = .SNAPSHOT_CONTENT) ∧ line = snapshotMark then
    .ok { status := .SNAPSHOT_MARK
          pending := none
          doc := { st.doc with snapshots :=
            match st.pending with
            | some s =>
              if s.contents.length > 0 then st.doc.snapshots ++ [s] else st.doc.snapshots
            | none => st.doc.snapshots } }
  else if st.status = .SNAPSHOT_MARK ∧ hasSnapshotName line then
    .ok { st with status := .SNAPSHOT_NAME }
  else if st.status = .SNAPSHOT_NAME ∧ line = snapshotMark then
    match st.pending with
    | none =>
      .ok { st with
            status := .SNAPSHOT_CONTENT
            pending := some ⟨0, []⟩ }
    | some _ => .error (st.doc, 2)
  else if st.status = .SNAPSHOT_CONTENT then
    match st.pending with
    | none => .error (st.doc, 2)
    | some s =>
      .ok { st with pending := some ⟨(timeOf line).getD s.time, s.contents ++ [line]⟩ }
  else .ok st

/-- Run the parser loop over a list of input lines. -/
def runLines (ignoreHeader : Bool) (st : PState) : List String → Except (MassifFile × Int) PState
  | [] => .ok st
  | l :: ls =>
    match stepLine ignoreHeader st l with
    | .ok st' => runLines ignoreHeader st' ls
    | .error e => .error e

/-- The end-of-input commit after `appendFile`'s loop. -/
def finishP (st : PState) : MassifFile :=
  match st.pending with
  | some s =>
    if s.contents.length > 0 then { st.doc with snapshots := st.doc.snapshots ++ [s] }
    else st.doc
  | none => st.doc

/-- The body of `appendFile` on an already-opened source: parse all lines from the
initial `NONE` state and return the updated document and the return code. -/
def appendLines (ignoreHeader : Bool) (mf : MassifFile) (lines : List String) :
    MassifFile × Int :=
  match runLines ignoreHeader ⟨.NONE, none, mf⟩ lines with
  | .ok st => (finishP st, 0)
  | .error e => e

/-- A source: `some lines` for a readable file, `none` when `ifstream`
fails to open (`appendFile`'s `return 1`). -/
def Source : Type := Option (List String)

/-- The call `MassifFile::add(path)`: `appendFile(path, headers.size() > 0)`. -/
def add (mf : MassifFile) (src : Source) : MassifFile × Int :=
  match src with
  | none => (mf, 1)
  | some lines => appendLines (!mf.headers.isEmpty) mf lines

/-- The iterator-range `MassifFile::add(first, last)` loop:
`if ((r = add(*it)) != 0) ret = r;`.  (Fold state is the document
together with the running `ret`.) -/
def addAll (mf : MassifFile) (srcs : List Source) : MassifFile × Int :=
  srcs.foldl
    (fun acc src =>
      let r := add acc.1 src
      (r.1, if r.2 ≠ 0 then r.2 else acc.2))
    (mf, 0)

/-- Decimal printing of the snapshot index: repeatedly peel the last
digit.  The first argument is fuel; `n` itself is always enough, since a
number has at most as many decimal digits as its value. -/
def natDigitsAux : Nat → Nat → List Char → List Char
  | 0, _, acc => acc
  | fuel + 1, n, acc =>
    if n = 0 then acc else natDigitsAux fuel (n / 10) (Char.ofNat (48 + n % 10) :: acc)

/-- Embeds `std::to_string` on a natural number. -/
def natToStr (n : Nat) : String :=
  if n = 0 then "0" else String.mk (natDigitsAux n n [])

/-- The three title lines plus body written by `MassifFile::writeSnapshot`. -/
def writeSnapshot (index : Nat) (s : Snapshot) : List String :=
  [snapshotMark, "snapshot=" ++ natToStr index, snapshotMark] ++ s.contents

/-- The `for (int i = 0; ...)` emission loop of `MassifFile::write`. -/
def writeSnapshots (i : Nat) : List Snapshot → List String
  | [] => []
  | s :: rest => writeSnapshot i s ++ writeSnapshots (i + 1) rest

/-- The relation `a->time < b->time` is passed to `std::sort`; any
correct sort for it is a faithful model (tie order is unspecified). -/
def timeLe (a b : Snapshot) : Prop := a.time ≤ b.time

instance : DecidableRel timeLe := fun a b => Nat.decLe a.time b.time

instance : IsTotal Snapshot timeLe := ⟨fun a b => Nat.le_total a.time b.time⟩

instance : IsTrans Snapshot timeLe := ⟨fun _ _ _ h h' => Nat.le_trans h h'⟩

/-- The in-place `std::sort` of the snapshot vector. -/
def sortSnapshots (l : List Snapshot) : List Snapshot := List.insertionSort timeLe l

/-- Error result of `MassifFile::write`. -/
inductive WriteErr where
  | emptyDocument
deriving DecidableEq, Repr

/-- The serializer `MassifFile::write`: fail on an empty document before any output is
produced; otherwise sort the snapshots in place and emit headers followed
by renumbered snapshot blocks.  Returns the post-sort document (the
mutated receiver) together with the emitted lines. -/
def write (mf : MassifFile) : Except WriteErr (MassifFile × List String) :=
  if mf.headers = [] ∧ mf.snapshots = [] then .error .emptyDocument
  else
    let sorted := sortSnapshots mf.snapshots
    .ok ({ headers := mf.headers, snapshots := sorted },
         mf.headers ++ writeSnapshots 0 sorted)

/-- The time value `appendFile` leaves in a snapshot whose body is the
given line list: each body line matching `time=(\d+)` overwrites the
field, starting from the value-initialized 0. -/
def computeTime (ls : List String) : Nat :=
  ls.foldl (fun t l => (timeOf l).getD t) 0

/-- What a delimiter (or end of input) does to the pending snapshot:
commit it when it has at least one body line, drop it otherwise. -/
def pendCommit : Option Snapshot → List Snapshot
  | some s => if s.contents.length > 0 then [s] else []
  | none => []

/-- The return codes produced source by source as the `add` loop runs. -/
def codesOf (mf : MassifFile) : List Source → List Int
  | [] => []
  | s :: ss => (add mf s).2 :: codesOf (add mf s).1 ss

/-- Structural invariant of the parser state: in the `SNAPSHOT_MARK` and
`SNAPSHOT_NAME` states no snapshot is pending (every delimiter reaching the
mark branch resets the pointer), and in `SNAPSHOT_CONTENT` one always is. -/
def SInv (st : PState) : Prop :=
  (st.status = .SNAPSHOT_MARK → st.pending = none) ∧
  (st.status = .SNAPSHOT_NAME → st.pending = none) ∧
  (st.status = .SNAPSHOT_CONTENT → st.pending.isSome)

/-- Lines that can sit inside a committed snapshot body: the parser never
stores a header-keyword line or the delimiter literal in a body. -/
def BodyGood (ls : List String) : Prop :=
  ∀ l ∈ ls, isKeyword l = false ∧ l ≠ snapshotMark

/-- Invariant of every committed snapshot. -/
def GoodSnap (s : Snapshot) : Prop :=
  s.contents ≠ [] ∧ BodyGood s.contents ∧ s.time = computeTime s.contents

/-- Invariant of a pending (not yet committed) snapshot. -/
def PendGood (s : Snapshot) : Prop :=
  BodyGood s.contents ∧ s.time = computeTime s.contents

/-- Invariant of any document built by the combiner: headers are keyword
lines, snapshots are well formed, and a document with a snapshot has a
header (a snapshot is only recognized after a keyword line, and the first
source to see a keyword line captures it). -/
def GoodDoc (mf : MassifFile) : Prop :=
  (∀ h ∈ mf.headers, isKeyword h = true) ∧
  (∀ s ∈ mf.snapshots, GoodSnap s) ∧
  (mf.snapshots ≠ [] → mf.headers ≠ [])

/-- Full parser-state invariant, relative to the `ignore_header` flag. -/
def GInv (ignoreHeader : Bool) (st : PState) : Prop :=
  SInv st ∧
  (∀ s, st.pending = some s → PendGood s) ∧
  (∀ s, st.pending = some s → st.status ≠ .NONE) ∧
  GoodDoc st.doc ∧
  (st.status ≠ .NONE → st.doc.headers ≠ []) ∧
  (ignoreHeader = true → st.doc.headers ≠ [])

theorem isKeyword_mark : isKeyword snapshotMark = false := by decide

/-- Rewrites `finishP` in terms of the commit function. -/
theorem finishP_eq (st : PState) :
    finishP st = ⟨st.doc.headers, st.doc.snapshots ++ pendCommit st.pending⟩ := by
  unfold finishP pendCommit
  rcases st.pending with _ | p
  · simp
  · by_cases h : p.contents.length > 0 <;> simp [h]

/-- Anything the commit function emits is the pending snapshot, and it has
a non-empty body. -/
theorem pendCommit_sub (p : Option Snapshot) :
    ∀ s ∈ pendCommit p, p = some s ∧ s.contents ≠ [] := by
  rcases p with _ | q
  · simp [pendCommit]
  · by_cases h : q.contents.length > 0
    · simp only [pendCommit, if_pos h]
      intro s hs
      have hq : s = q := by simpa using hs
      subst hq
      exact ⟨rfl, by intro hc; rw [hc] at h; simp at h⟩
    · simp [pendCommit, if_neg h]

/-- A parser state satisfying the structural invariant never hits either
`return 2` branch: one line always yields a next state, again satisfying
the invariant, and any snapshot committed along the way has a non-empty
body. -/
theorem stepLine_total (ih : Bool) (st : PState) (l : String) (h : SInv st) :
    ∃ st', stepLine ih st l = .ok st' ∧ SInv st' ∧
      ∀ s ∈ st'.doc.snapshots, s ∈ st.doc.snapshots ∨ s.contents ≠ [] := by
  obtain ⟨h1, h2, h3⟩ := h
  by_cases hk : isKeyword l = true
  · exact ⟨⟨.HEADER, st.pending,
        ⟨if ih then st.doc.headers else st.doc.headers ++ [l], st.doc.snapshots⟩⟩,
      by simp [stepLine, hk], by simp [SInv], fun s hs => .inl hs⟩
  by_cases hm2 : (st.status = .HEADER ∨ st.status = .SNAPSHOT_CONTENT) ∧ l = snapshotMark
  · refine ⟨⟨.SNAPSHOT_MARK, none,
        ⟨st.doc.headers, st.doc.snapshots ++ pendCommit st.pending⟩⟩,
      ?_, by simp [SInv], ?_⟩
    · rcases hp : st.pending with _ | p
      · simp [stepLine, hk, hm2, hp, pendCommit, isKeyword_mark]
      · by_cases hl : p.contents.length > 0 <;>
          simp [stepLine, hk, hm2, hp, pendCommit, hl, isKeyword_mark]
    · intro s hs
      rcases List.mem_append.mp hs with h' | h'
      · exact .inl h'
      · exact .inr (pendCommit_sub st.pending s h').2
  by_cases hm3 : st.status = .SNAPSHOT_MARK ∧ hasSnapshotName l = true
  · exact ⟨⟨.SNAPSHOT_NAME, st.pending, st.doc⟩,
      by simp [stepLine, hk, hm2, hm3],
      by simp [SInv, h1 hm3.1], fun s hs => .inl hs⟩
  by_cases hm4 : st.status = .SNAPSHOT_NAME ∧ l = snapshotMark
  · exact ⟨⟨.SNAPSHOT_CONTENT, some ⟨0, []⟩, st.doc⟩,
      by simp [stepLine, hk, hm2, hm3, hm4, h2 hm4.1, isKeyword_mark],
      by simp [SInv], fun s hs => .inl hs⟩
  by_cases hm5 : st.status = .SNAPSHOT_CONTENT
  · obtain ⟨p, hp⟩ := Option.isSome_iff_exists.mp (h3 hm5)
    have hlm : ¬l = snapshotMark := fun hc => hm2 ⟨Or.inr hm5, hc⟩
    exact ⟨⟨.SNAPSHOT_CONTENT, some ⟨(timeOf l).getD p.time, p.contents ++ [l]⟩, st.doc⟩,
      by simp [stepLine, hk, hm2, hm3, hm4, hm5, hp, hlm],
      by simp [SInv], fun s hs => .inl hs⟩
  · refine ⟨st, ?_, ⟨h1, h2, h3⟩, fun s hs => .inl hs⟩
    by_cases hlm : l = snapshotMark
    · have hA : ¬st.status = .HEADER := fun h' => hm2 ⟨Or.inl h', hlm⟩
      have hnm : ¬st.status = .SNAPSHOT_NAME := fun hn => hm4 ⟨hn, hlm⟩
      simp [stepLine, hk, hA, hm3, hnm, hm5]
    · simp [stepLine, hk, hlm, hm3, hm5]

/-- Iterated form of `stepLine_total` over a whole input. -/
theorem runLines_total (ih : Bool) (lines : List String) :
    ∀ st, SInv st → ∃ st', runLines ih st lines = .ok st' ∧ SInv st' ∧
      ∀ s ∈ st'.doc.snapshots, s ∈ st.doc.snapshots ∨ s.contents ≠ [] := by
  induction lines with
  | nil => exact fun st h => ⟨st, rfl, h, fun s hs => .inl hs⟩
  | cons l ls ih2 =>
    intro st h
    obtain ⟨st1, he1, hi1, hs1⟩ := stepLine_total ih st l h
    obtain ⟨st2, he2, hi2, hs2⟩ := ih2 st1 hi1
    refine ⟨st2, ?_, hi2, ?_⟩
    · simp [runLines, he1, he2]
    · intro s hs
      rcases hs2 s hs with h' | h'
      · exact hs1 s h'
      · exact .inr h'

/-- Parsing an opened source always returns 0, and every snapshot
it leaves in the document either was already there or has a non-empty
body. -/
theorem appendLines_ok (ih : Bool) (mf : MassifFile) (lines : List String) :
    (appendLines ih mf lines).2 = 0 ∧
      ∀ s ∈ (appendLines ih mf lines).1.snapshots, s ∈ mf.snapshots ∨ s.contents ≠ [] := by
  obtain ⟨st', he, _, hs⟩ :=
    runLines_total ih lines ⟨.NONE, none, mf⟩ (by simp [SInv])
  have happ : appendLines ih mf lines = (finishP st', 0) := by
    unfold appendLines
    rw [he]
  rw [happ]
  refine ⟨rfl, ?_⟩
  intro s hmem
  rw [finishP_eq] at hmem
  rcases List.mem_append.mp hmem with h' | h'
  · exact hs s h'
  · exact .inr (pendCommit_sub st'.pending s h').2

/-- Helper for C2: from the initial state, lines that never match the
header-keyword pattern leave the parser state exactly as it was. -/
theorem runLines_none (ih : Bool) :
    ∀ (lines : List String) (st : PState), st.status = .NONE → st.pending = none →
      (∀ l ∈ lines, isKeyword l = false) → runLines ih st lines = .ok st := by
  intro lines
  induction lines with
  | nil => intro st _ _ _; rfl
  | cons l ls ihl =>
    intro st hs hp hall
    have hk : isKeyword l = false := hall l (by simp)
    have hstep : stepLine ih st l = .ok st := by
      simp [stepLine, hk, hs, hp]
    simp only [runLines, hstep]
    exact ihl st hs hp (fun x hx => hall x (by simp [hx]))

/-- C2: an input with no header-keyword line adds no header and no
snapshot: the document is returned exactly unchanged, with code 0. -/
theorem c2_no_keyword_no_change (ih : Bool) (mf : MassifFile) (lines : List String)
    (h : ∀ l ∈ lines, isKeyword l = false) :
    appendLines ih mf lines = (mf, 0) := by
  unfold appendLines
  rw [runLines_none ih lines ⟨.NONE, none, mf⟩ rfl rfl h]
  rfl

theorem c2_witness :
    (∀ l ∈ ["#-----------", "snapshot=0", "time=7", "hello"], isKeyword l = false) ∧
      appendLines true ⟨["cmd: ./a"], [⟨3, ["b"]⟩]⟩
          ["#-----------", "snapshot=0", "time=7", "hello"] =
        (⟨["cmd: ./a"], [⟨3, ["b"]⟩]⟩, 0) :=
  ⟨by decide, c2_no_keyword_no_change true ⟨["cmd: ./a"], [⟨3, ["b"]⟩]⟩ _ (by decide)⟩

/-- C7: a document with no headers and no snapshots makes `write` fail
with the empty-document error; the error is returned before any output
line is produced (the `ok` payload, document and lines, does not exist). -/
theorem c7_empty_document (mf : MassifFile)
    (h1 : mf.headers = []) (h2 : mf.snapshots = []) :
    write mf = .error .emptyDocument := by
  simp [write, h1, h2]

theorem c7_empty_document_witness :
    (MassifFile.mk [] []).headers = [] ∧ (MassifFile.mk [] []).snapshots = [] ∧
      write ⟨[], []⟩ = .error .emptyDocument :=
  ⟨rfl, rfl, c7_empty_document ⟨[], []⟩ rfl rfl⟩

/-- C4 counterexample: the input the spec describes as the minimal failing
one — an open sequence, pending body content, then a second open sequence
with no other close delimiter in between — parses successfully with code 0:
the delimiter starting the second open sequence is itself taken as the
close (the mark branch fires from `SNAPSHOT_CONTENT`), so the duplicate-open
error branch is not reached. -/
theorem c4_counterexample :
    appendLines false ⟨[], []⟩
        ["desc: x", "#-----------", "snapshot=0", "#-----------", "body",
         "#-----------", "snapshot=1", "#-----------"] =
      (⟨["desc: x"], [⟨0, ["body"]⟩]⟩, 0) := by
  decide

/-- C4 (amended): no input line sequence makes the parser fail with
`DuplicateSnapshotOpen` (or any error): every delimiter seen while content
is pending commits-and-clears the pending snapshot before a new open
sequence can complete, so `appendFile`'s loop always returns 0. -/
theorem c4_amended_no_duplicate_open (ih : Bool) (mf : MassifFile) (lines : List String) :
    (appendLines ih mf lines).2 = 0 :=
  (appendLines_ok ih mf lines).1

/-- C10: an opened snapshot region that accumulates no body line is never
committed — every snapshot in the resulting document either predates this
parse or has a non-empty body — and discarding it is not an error. -/
theorem c10_empty_body_discarded (ih : Bool) (mf : MassifFile) (lines : List String)
    (h : ∀ s ∈ mf.snapshots, s.contents ≠ []) :
    (∀ s ∈ (appendLines ih mf lines).1.snapshots, s.contents ≠ []) ∧
      (appendLines ih mf lines).2 = 0 := by
  obtain ⟨hc, hmem⟩ := appendLines_ok ih mf lines
  exact ⟨fun s hs => (hmem s hs).elim (fun h' => h s h') id, hc⟩

theorem c10_witness :
    (∀ s ∈ (MassifFile.mk [] []).snapshots, s.contents ≠ []) ∧
      ((∀ s ∈ (appendLines false ⟨[], []⟩
            ["desc: x", "#-----------", "snapshot=0", "#-----------",
             "#-----------", "snapshot=1", "#-----------", "time=5"]).1.snapshots,
          s.contents ≠ []) ∧
        (appendLines false ⟨[], []⟩
            ["desc: x", "#-----------", "snapshot=0", "#-----------",
             "#-----------", "snapshot=1", "#-----------", "time=5"]).2 = 0) :=
  ⟨by simp, c10_empty_body_discarded false ⟨[], []⟩ _ (by simp)⟩

/-- C1 counterexample: with source A = `desc: x` header plus a `time=100`
snapshot and source B = a `time=50` snapshot with no headers, the combined
and serialized output is not the two-snapshot document the claim promises:
source B contributes nothing (its delimiter is never recognized because the
parser never leaves `NONE` without a keyword line). -/
theorem c1_counterexample :
    ((write (addAll ⟨[], []⟩
        [some ["desc: x", "#-----------", "snapshot=0", "#-----------",
               "time=100", "mem_heap_B=10"],
         some ["#-----------", "snapshot=0", "#-----------",
               "time=50", "mem_heap_B=5"]]).1).toOption.map (fun r => r.2)) ≠
      some ["desc: x",
            "#-----------", "snapshot=0", "#-----------", "time=50", "mem_heap_B=5",
            "#-----------", "snapshot=1", "#-----------", "time=100", "mem_heap_B=10"] := by
  decide

/-- C1 (amended): combining [A, B] as in the claim and serializing yields
headers `desc: x` and a single snapshot 0 holding the `time=100` body;
source B, having no header-keyword line, contributes no snapshot. -/
theorem c1_amended_end_to_end :
    write (addAll ⟨[], []⟩
        [some ["desc: x", "#-----------", "snapshot=0", "#-----------",
               "time=100", "mem_heap_B=10"],
         some ["#-----------", "snapshot=0", "#-----------",
               "time=50", "mem_heap_B=5"]]).1 =
      .ok (⟨["desc: x"], [⟨100, ["time=100", "mem_heap_B=10"]⟩]⟩,
           ["desc: x", "#-----------", "snapshot=0", "#-----------",
            "time=100", "mem_heap_B=10"]) := by
  rfl

/-- The `add` iterator loop with an arbitrary initial `ret`. -/
theorem addAll_loop (srcs : List Source) :
    ∀ (mf : MassifFile) (r0 : Int),
      srcs.foldl (fun acc src =>
          let r := add acc.1 src
          (r.1, if r.2 ≠ 0 then r.2 else acc.2)) (mf, r0) =
        (srcs.foldl (fun d s => (add d s).1) mf,
          ((codesOf mf srcs).reverse.find? (fun r => decide (r ≠ 0))).getD r0) := by
  induction srcs with
  | nil => intro mf r0; simp [codesOf]
  | cons s ss ih =>
    intro mf r0
    simp only [List.foldl_cons, codesOf, List.reverse_cons]
    rw [ih]
    rw [List.find?_append]
    rcases hf : (codesOf (add mf s).1 ss).reverse.find? (fun r => decide (r ≠ 0)) with _ | e
    · by_cases hc : (add mf s).2 = 0 <;>
        simp [Option.or, List.find?, hc]
    · simp [Option.or]

/-- C6: the combiner attempts every source (the final document is the fold
of `add` over the whole list, regardless of failures), and the overall code
is 0 when no per-source code is nonzero, and otherwise the code of the last
source that failed. -/
theorem c6_best_effort_last_error (mf : MassifFile) (srcs : List Source) :
    (addAll mf srcs).1 = srcs.foldl (fun d s => (add d s).1) mf ∧
      ((codesOf mf srcs).reverse.find? (fun r => decide (r ≠ 0)) = none →
        (addAll mf srcs).2 = 0) ∧
      ∀ e, (codesOf mf srcs).reverse.find? (fun r => decide (r ≠ 0)) = some e →
        (addAll mf srcs).2 = e := by
  unfold addAll
  rw [addAll_loop srcs mf 0]
  exact ⟨rfl, fun h => by rw [h]; rfl, fun e h => by rw [h]; rfl⟩

theorem c6_witness :
    (codesOf ⟨[], []⟩ [some ["cmd: a"], none, some []]).reverse.find?
        (fun r => decide (r ≠ 0)) = some 1 ∧
      (addAll ⟨[], []⟩ [some ["cmd: a"], none, some []]).2 = 1 :=
  ⟨by decide, (c6_best_effort_last_error ⟨[], []⟩ [some ["cmd: a"], none, some []]).2.2 1
    (by decide)⟩

/-- Unfolding `write` on a non-empty document. -/
theorem write_ok (mf d : MassifFile) (out : List String)
    (h : write mf = .ok (d, out)) :
    d = ⟨mf.headers, sortSnapshots mf.snapshots⟩ ∧
      out = mf.headers ++ writeSnapshots 0 (sortSnapshots mf.snapshots) := by
  unfold write at h
  by_cases hc : mf.headers = [] ∧ mf.snapshots = []
  · rw [if_pos hc] at h
    cases h
  · rw [if_neg hc] at h
    simp only [Except.ok.injEq, Prod.mk.injEq] at h
    exact ⟨h.1.symm, h.2.symm⟩

/-- C8: on any successful `write`, the emitted snapshot sequence (the
sorted vector, emitted in order into `out`) is pairwise ordered by
chronological key. -/
theorem c8_output_sorted (mf d : MassifFile) (out : List String)
    (h : write mf = .ok (d, out)) :
    d.snapshots.Pairwise (fun a b => a.time ≤ b.time) ∧
      out = d.headers ++ writeSnapshots 0 d.snapshots := by
  obtain ⟨hd, hout⟩ := write_ok mf d out h
  subst hd
  constructor
  · exact List.sorted_insertionSort timeLe mf.snapshots
  · exact hout

theorem c8_witness :
    write ⟨["desc: x"], [⟨9, ["time=9"]⟩, ⟨4, ["time=4"]⟩]⟩ =
        .ok (⟨["desc: x"], [⟨4, ["time=4"]⟩, ⟨9, ["time=9"]⟩]⟩,
             ["desc: x", "#-----------", "snapshot=0", "#-----------", "time=4",
              "#-----------", "snapshot=1", "#-----------", "time=9"]) ∧
      (([⟨4, ["time=4"]⟩, ⟨9, ["time=9"]⟩] : List Snapshot).Pairwise
          (fun a b => a.time ≤ b.time) ∧
        ["desc: x", "#-----------", "snapshot=0", "#-----------", "time=4",
         "#-----------", "snapshot=1", "#-----------", "time=9"] =
          ["desc: x"] ++ writeSnapshots 0 [⟨4, ["time=4"]⟩, ⟨9, ["time=9"]⟩]) :=
  ⟨rfl, c8_output_sorted ⟨["desc: x"], [⟨9, ["time=9"]⟩, ⟨4, ["time=4"]⟩]⟩ _ _ rfl⟩

/-- The emission loop in closed form: block `j` of the output carries the
synthesized index `i + j`, whatever the snapshot bodies contain. -/
theorem writeSnapshots_eq (L : List Snapshot) :
    ∀ i, writeSnapshots i L =
      ((List.range L.length).zip L).flatMap (fun p => writeSnapshot (i + p.1) p.2) := by
  induction L with
  | nil => intro i; rfl
  | cons s L ih =>
    intro i
    simp only [writeSnapshots, List.length_cons]
    rw [List.range_succ_eq_map]
    simp only [List.zip_cons_cons, List.flatMap_cons]
    rw [List.zip_map_left, List.flatMap_map]
    rw [ih (i + 1)]
    congr 1
    apply congrArg
    funext a
    simp only [Prod.map_fst, Prod.map_snd, id_eq]
    congr 1
    omega

/-- C9: on any successful `write`, the output is the headers followed by
blocks whose synthesized `snapshot=` lines carry exactly the indices
`0..n-1` in emitted order, independent of anything inside the bodies. -/
theorem c9_renumbering (mf d : MassifFile) (out : List String)
    (h : write mf = .ok (d, out)) :
    out = d.headers ++
      ((List.range d.snapshots.length).zip d.snapshots).flatMap
        (fun p => [snapshotMark, "snapshot=" ++ natToStr p.1, snapshotMark] ++ p.2.contents) := by
  obtain ⟨hd, hout⟩ := write_ok mf d out h
  subst hd
  rw [hout, writeSnapshots_eq]
  simp [writeSnapshot]

theorem c9_witness :
    write ⟨["cmd: p"], [⟨7, ["snapshot=42", "time=7"]⟩, ⟨2, ["time=2"]⟩]⟩ =
        .ok (⟨["cmd: p"], [⟨2, ["time=2"]⟩, ⟨7, ["snapshot=42", "time=7"]⟩]⟩,
             ["cmd: p", "#-----------", "snapshot=0", "#-----------", "time=2",
              "#-----------", "snapshot=1", "#-----------", "snapshot=42", "time=7"]) ∧
      ["cmd: p", "#-----------", "snapshot=0", "#-----------", "time=2",
       "#-----------", "snapshot=1", "#-----------", "snapshot=42", "time=7"] =
        ["cmd: p"] ++
          ((List.range
              [Snapshot.mk 2 ["time=2"], Snapshot.mk 7 ["snapshot=42", "time=7"]].length).zip
            [Snapshot.mk 2 ["time=2"], Snapshot.mk 7 ["snapshot=42", "time=7"]]).flatMap
            (fun p => [snapshotMark, "snapshot=" ++ natToStr p.1, snapshotMark] ++
              p.2.contents) :=
  ⟨rfl, c9_renumbering ⟨["cmd: p"], [⟨7, ["snapshot=42", "time=7"]⟩, ⟨2, ["time=2"]⟩]⟩ _ _ rfl⟩

/-- The time field is recomputed by one more body line exactly as the
parser updates it. -/
theorem computeTime_append (cs : List String) (l : String) :
    computeTime (cs ++ [l]) = (timeOf l).getD (computeTime cs) := by
  unfold computeTime
  rw [List.foldl_append]
  rfl

/-- One parser step preserves the full invariant. -/
theorem stepLine_good (ih : Bool) (st : PState) (l : String) (h : GInv ih st) :
    ∃ st', stepLine ih st l = .ok st' ∧ GInv ih st' := by
  obtain ⟨⟨h1, h2, h3⟩, hpend, hpstat, hdoc, hnn, hih⟩ := h
  by_cases hk : isKeyword l = true
  · have hne : (if ih then st.doc.headers else st.doc.headers ++ [l]) ≠ [] := by
      by_cases hi : ih = true
      · rw [if_pos hi]
        exact hih hi
      · rw [if_neg hi]
        simp
    refine ⟨⟨.HEADER, st.pending,
        ⟨if ih then st.doc.headers else st.doc.headers ++ [l], st.doc.snapshots⟩⟩,
      by simp [stepLine, hk], by simp [SInv], hpend, fun s _ => by simp,
      ⟨?_, hdoc.2.1, fun _ => hne⟩, fun _ => hne, fun _ => hne⟩
    intro x hx
    by_cases hi : ih = true
    · rw [if_pos hi] at hx
      exact hdoc.1 x hx
    · rw [if_neg hi] at hx
      rcases List.mem_append.mp hx with h' | h'
      · exact hdoc.1 x h'
      · have : x = l := by simpa using h'
        rw [this]
        exact hk
  by_cases hm2 : (st.status = .HEADER ∨ st.status = .SNAPSHOT_CONTENT) ∧ l = snapshotMark
  · have hne : st.doc.headers ≠ [] := by
      refine hnn ?_
      rcases hm2.1 with h' | h' <;> simp [h']
    refine ⟨⟨.SNAPSHOT_MARK, none,
        ⟨st.doc.headers, st.doc.snapshots ++ pendCommit st.pending⟩⟩,
      ?_, by simp [SInv], by simp, by simp,
      ⟨hdoc.1, ?_, fun _ => hne⟩, fun _ => hne, fun _ => hne⟩
    · rcases hp : st.pending with _ | p
      · simp [stepLine, hk, hm2, hp, pendCommit, isKeyword_mark]
      · by_cases hl : p.contents.length > 0 <;>
          simp [stepLine, hk, hm2, hp, pendCommit, hl, isKeyword_mark]
    · intro s hs
      rcases List.mem_append.mp hs with h' | h'
      · exact hdoc.2.1 s h'
      · obtain ⟨hpeq, hcne⟩ := pendCommit_sub st.pending s h'
        obtain ⟨hb, ht⟩ := hpend s hpeq
        exact ⟨hcne, hb, ht⟩
  by_cases hm3 : st.status = .SNAPSHOT_MARK ∧ hasSnapshotName l = true
  · refine ⟨⟨.SNAPSHOT_NAME, st.pending, st.doc⟩,
      by simp [stepLine, hk, hm2, hm3],
      by simp [SInv, h1 hm3.1], hpend, fun s _ => by simp, hdoc,
      fun _ => hnn (by simp [hm3.1]), hih⟩
  by_cases hm4 : st.status = .SNAPSHOT_NAME ∧ l = snapshotMark
  · refine ⟨⟨.SNAPSHOT_CONTENT, some ⟨0, []⟩, st.doc⟩,
      by simp [stepLine, hk, hm2, hm3, hm4, h2 hm4.1, isKeyword_mark],
      by simp [SInv], ?_, fun s _ => by simp, hdoc,
      fun _ => hnn (by simp [hm4.1]), hih⟩
    intro s hs
    have : s = (⟨0, []⟩ : Snapshot) := by
      symm
      simpa using hs
    rw [this]
    exact ⟨by simp [BodyGood], by simp [computeTime]⟩
  by_cases hm5 : st.status = .SNAPSHOT_CONTENT
  · obtain ⟨p, hp⟩ := Option.isSome_iff_exists.mp (h3 hm5)
    have hlm : ¬l = snapshotMark := fun hc => hm2 ⟨Or.inr hm5, hc⟩
    have hkf : isKeyword l = false := by simpa using hk
    refine ⟨⟨.SNAPSHOT_CONTENT, some ⟨(timeOf l).getD p.time, p.contents ++ [l]⟩, st.doc⟩,
      by simp [stepLine, hk, hm2, hm3, hm4, hm5, hp, hlm],
      by simp [SInv], ?_, fun s _ => by simp, hdoc,
      fun _ => hnn (by simp [hm5]), hih⟩
    intro s hs
    have hseq : s = (⟨(timeOf l).getD p.time, p.contents ++ [l]⟩ : Snapshot) := by
      symm
      simpa using hs
    obtain ⟨hb, ht⟩ := hpend p hp
    rw [hseq]
    refine ⟨?_, ?_⟩
    · intro x hx
      rcases List.mem_append.mp hx with h' | h'
      · exact hb x h'
      · have : x = l := by simpa using h'
        rw [this]
        exact ⟨hkf, hlm⟩
    · rw [computeTime_append, ← ht]
  · refine ⟨st, ?_, ⟨h1, h2, h3⟩, hpend, hpstat, hdoc, hnn, hih⟩
    by_cases hlm : l = snapshotMark
    · have hA : ¬st.status = .HEADER := fun h' => hm2 ⟨Or.inl h', hlm⟩
      have hnm : ¬st.status = .SNAPSHOT_NAME := fun hn => hm4 ⟨hn, hlm⟩
      simp [stepLine, hk, hA, hm3, hnm, hm5]
    · simp [stepLine, hk, hlm, hm3, hm5]

/-- Iterated form of `stepLine_good`. -/
theorem runLines_good (ih : Bool) (lines : List String) :
    ∀ st, GInv ih st → ∃ st', runLines ih st lines = .ok st' ∧ GInv ih st' := by
  induction lines with
  | nil => exact fun st h => ⟨st, rfl, h⟩
  | cons l ls ihl =>
    intro st h
    obtain ⟨st1, he1, hi1⟩ := stepLine_good ih st l h
    obtain ⟨st2, he2, hi2⟩ := ihl st1 hi1
    exact ⟨st2, by simp [runLines, he1, he2], hi2⟩

/-- The invariant holds when `appendFile` starts on a good document, given
that the `ignore_header` flag is only set when headers already exist. -/
theorem GInv_init (ih : Bool) (mf : MassifFile) (hd : GoodDoc mf)
    (hih : ih = true → mf.headers ≠ []) : GInv ih ⟨.NONE, none, mf⟩ := by
  refine ⟨by simp [SInv], by simp, by simp, hd, ?_, hih⟩
  intro hn
  exact absurd rfl hn

/-- Parsing a source preserves document goodness. -/
theorem appendLines_good (ih : Bool) (mf : MassifFile) (lines : List String)
    (hd : GoodDoc mf) (hih : ih = true → mf.headers ≠ []) :
    GoodDoc (appendLines ih mf lines).1 := by
  obtain ⟨st', he, ⟨_, _, _⟩, hpend, hpstat, hdoc, hnn, _⟩ :=
    runLines_good ih lines ⟨.NONE, none, mf⟩ (GInv_init ih mf hd hih)
  have happ : appendLines ih mf lines = (finishP st', 0) := by
    unfold appendLines
    rw [he]
  rw [happ]
  have hfin : finishP st' = ⟨st'.doc.headers, st'.doc.snapshots ++ pendCommit st'.pending⟩ :=
    finishP_eq st'
  show GoodDoc (finishP st')
  rw [hfin]
  refine ⟨hdoc.1, ?_, ?_⟩
  · intro s hs
    rcases List.mem_append.mp hs with h' | h'
    · exact hdoc.2.1 s h'
    · obtain ⟨hpeq, hcne⟩ := pendCommit_sub st'.pending s h'
      obtain ⟨hb, ht⟩ := hpend s hpeq
      exact ⟨hcne, hb, ht⟩
  · intro hne
    by_cases hsn : st'.doc.snapshots = []
    · rw [hsn] at hne
      simp only [List.nil_append] at hne
      rcases hp : st'.pending with _ | q
      · rw [hp] at hne
        simp [pendCommit] at hne
      · exact hnn (hpstat q hp)
    · exact hdoc.2.2 hsn

/-- The empty document is good. -/
theorem goodDoc_empty : GoodDoc ⟨[], []⟩ := by
  refine ⟨by simp, by simp, by simp⟩

/-- Adding a source preserves document goodness. -/
theorem add_good (mf : MassifFile) (src : Source) (hd : GoodDoc mf) :
    GoodDoc (add mf src).1 := by
  rcases src with _ | lines
  · exact hd
  · refine appendLines_good (!mf.headers.isEmpty) mf lines hd ?_
    intro hi
    simpa using hi

/-- Folding `add` over sources preserves goodness. -/
theorem foldl_add_good (srcs : List Source) :
    ∀ mf, GoodDoc mf → GoodDoc (srcs.foldl (fun d s => (add d s).1) mf) := by
  induction srcs with
  | nil => exact fun mf h => h
  | cons s ss ih => exact fun mf h => ih (add mf s).1 (add_good mf s h)

/-- Any document produced by the combiner is good. -/
theorem addAll_good (mf : MassifFile) (srcs : List Source) (h : GoodDoc mf) :
    GoodDoc (addAll mf srcs).1 := by
  unfold addAll
  rw [addAll_loop srcs mf 0]
  exact foldl_add_good srcs mf h

/-- C3 counterexample: a snapshot body with two `time=` lines gets the
value of the second (last) one, not the first. -/
theorem c3_counterexample :
    (appendLines false ⟨[], []⟩
        ["desc: x", "#-----------", "snapshot=0", "#-----------",
         "time=100", "time=200"]).1.snapshots.map (fun s => s.time) = [200] ∧
      (appendLines false ⟨[], []⟩
        ["desc: x", "#-----------", "snapshot=0", "#-----------",
         "time=100", "time=200"]).1.snapshots.map (fun s => s.time) ≠ [100] := by
  exact ⟨by decide, by decide⟩

/-- C3 (amended): every parsed snapshot's chronological key is the value
the last matching `time=(\d+)` body line put there (each match overwrites
the field; within one line the leftmost match is taken); 0 if none. -/
theorem c3_last_time_wins (lines : List String) :
    ∀ s ∈ (add ⟨[], []⟩ (some lines)).1.snapshots, s.time = computeTime s.contents := by
  have h := appendLines_good false ⟨[], []⟩ lines goodDoc_empty (by simp)
  exact fun s hs => (h.2.1 s hs).2.2

theorem c3_witness :
    (Snapshot.mk 200 ["time=100", "time=200"]) ∈
        (add ⟨[], []⟩ (some ["desc: x", "#-----------", "snapshot=0", "#-----------",
          "time=100", "time=200"])).1.snapshots ∧
      (Snapshot.mk 200 ["time=100", "time=200"]).time =
        computeTime (Snapshot.mk 200 ["time=100", "time=200"]).contents :=
  ⟨by decide, c3_last_time_wins
    ["desc: x", "#-----------", "snapshot=0", "#-----------", "time=100", "time=200"]
    (Snapshot.mk 200 ["time=100", "time=200"]) (by decide)⟩

/-- Running the parser over a concatenation is running it over the pieces
in sequence, as long as the first piece succeeds. -/
theorem runLines_append (ih : Bool) (xs : List String) :
    ∀ (st st1 : PState), runLines ih st xs = .ok st1 →
      ∀ ys, runLines ih st (xs ++ ys) = runLines ih st1 ys := by
  induction xs with
  | nil =>
    intro st st1 h ys
    have : st = st1 := by
      simpa [runLines] using h
    rw [List.nil_append, this]
  | cons x xs ih2 =>
    intro st st1 h ys
    cases hstep : stepLine ih st x with
    | ok st' =>
      rw [List.cons_append]
      show (match stepLine ih st x with
        | .ok st2 => runLines ih st2 (xs ++ ys)
        | .error e => .error e) = runLines ih st1 ys
      rw [hstep]
      refine ih2 st' st1 ?_ ys
      have h' : (match stepLine ih st x with
          | .ok st2 => runLines ih st2 xs
          | .error e => (.error e : Except (MassifFile × Int) PState)) = .ok st1 := h
      rw [hstep] at h'
      exact h'
    | error e =>
      exfalso
      have h' : (match stepLine ih st x with
          | .ok st2 => runLines ih st2 xs
          | .error e => (.error e : Except (MassifFile × Int) PState)) = .ok st1 := h
      rw [hstep] at h'
      cases h'

/-- The character `48 + m` is a decimal digit character for `m < 10`. -/
theorem ofNat_digit (m : Nat) (h : m < 10) : (Char.ofNat (48 + m)).isDigit = true := by
  interval_cases m <;> decide

/-- The digit-peeling loop produces only digit characters, and never
shrinks a non-empty accumulator. -/
theorem natDigitsAux_digits (fuel : Nat) :
    ∀ (n : Nat) (acc : List Char), (∀ c ∈ acc, c.isDigit = true) →
      (∀ c ∈ natDigitsAux fuel n acc, c.isDigit = true) ∧
        (acc ≠ [] → natDigitsAux fuel n acc ≠ []) := by
  induction fuel with
  | zero => exact fun n acc h => ⟨h, fun hne => hne⟩
  | succ fuel ih =>
    intro n acc h
    by_cases hn : n = 0
    · have hacc0 : natDigitsAux (fuel + 1) n acc = acc := by
        simp [natDigitsAux, hn]
      rw [hacc0]
      exact ⟨h, fun hne => hne⟩
    · have hstep : natDigitsAux (fuel + 1) n acc =
          natDigitsAux fuel (n / 10) (Char.ofNat (48 + n % 10) :: acc) := by
        simp [natDigitsAux, hn]
      rw [hstep]
      have hacc : ∀ c ∈ Char.ofNat (48 + n % 10) :: acc, c.isDigit = true := by
        intro c hc
        rcases List.mem_cons.mp hc with h' | h'
        · rw [h']
          exact ofNat_digit (n % 10) (Nat.mod_lt n (by decide))
        · exact h c h'
      obtain ⟨ha, hb⟩ := ih (n / 10) (Char.ofNat (48 + n % 10) :: acc) hacc
      exact ⟨ha, fun _ => hb (by simp)⟩

/-- The result of `std::to_string` is a non-empty all-digit string. -/
theorem natToStr_digits (n : Nat) :
    (natToStr n).data ≠ [] ∧ ∀ c ∈ (natToStr n).data, c.isDigit = true := by
  unfold natToStr
  by_cases hn : n = 0
  · rw [if_pos hn]
    exact ⟨by decide, by decide⟩
  · rw [if_neg hn]
    obtain ⟨m, rfl⟩ : ∃ m, n = m + 1 := ⟨n - 1, by omega⟩
    have hstep : natDigitsAux (m + 1) (m + 1) [] =
        natDigitsAux m ((m + 1) / 10) [Char.ofNat (48 + (m + 1) % 10)] := by
      simp [natDigitsAux]
    show natDigitsAux (m + 1) (m + 1) [] ≠ [] ∧ _
    rw [hstep]
    have hacc : ∀ c ∈ [Char.ofNat (48 + (m + 1) % 10)], c.isDigit = true := by
      intro c hc
      have : c = Char.ofNat (48 + (m + 1) % 10) := by simpa using hc
      rw [this]
      exact ofNat_digit ((m + 1) % 10) (Nat.mod_lt (m + 1) (by decide))
    obtain ⟨ha, hb⟩ := natDigitsAux_digits m ((m + 1) / 10) [Char.ofNat (48 + (m + 1) % 10)] hacc
    exact ⟨hb (by simp), ha⟩

/-- A synthesized index line never matches the header-keyword pattern. -/
theorem isKeyword_idx (n : Nat) : isKeyword ("snapshot=" ++ natToStr n) = false := rfl

/-- A synthesized index line is never the delimiter literal. -/
theorem idx_ne_mark (n : Nat) : ("snapshot=" ++ natToStr n) ≠ snapshotMark := by
  intro h
  have : ("snapshot=" ++ natToStr n).data = snapshotMark.data := by rw [h]
  have hcons : ("snapshot=" ++ natToStr n).data = 's' :: ("napshot=" ++ natToStr n).data := rfl
  rw [hcons] at this
  have : 's' = '#' := by
    have := List.head_eq_of_cons_eq this
    exact this
  cases this

/-- One unfolding of the unanchored `snapshot=\d+` search. -/
theorem snapNameSearch_head (c : Char) (cs : List Char) :
    snapNameSearch (c :: cs) = (snapNameAt (c :: cs) || snapNameSearch cs) := rfl

/-- A synthesized index line matches `snapshot=\d+`. -/
theorem hasSnapshotName_idx (n : Nat) :
    hasSnapshotName ("snapshot=" ++ natToStr n) = true := by
  obtain ⟨hne, hdig⟩ := natToStr_digits n
  have hdrop : dropLit "snapshot=".data (("snapshot=" ++ natToStr n).data) =
      some (natToStr n).data := rfl
  have hAt : snapNameAt (("snapshot=" ++ natToStr n).data) = true := by
    unfold snapNameAt
    rw [hdrop]
    rcases hd : (natToStr n).data with _ | ⟨d, ds⟩
    · exact absurd hd hne
    · exact hdig d (by rw [hd]; simp)
  have hcons : ("snapshot=" ++ natToStr n).data = 's' :: ("napshot=" ++ natToStr n).data := rfl
  have hAt' : snapNameAt ('s' :: ("napshot=" ++ natToStr n).data) = true := by
    rw [← hcons]
    exact hAt
  show snapNameSearch (("snapshot=" ++ natToStr n).data) = true
  rw [hcons, snapNameSearch_head, hAt', Bool.true_or]

/-- Committing a pending snapshot with a non-empty body keeps it. -/
theorem pendCommit_some_ne (s : Snapshot) (h : s.contents ≠ []) :
    pendCommit (some s) = [s] := by
  show (if s.contents.length > 0 then [s] else []) = [s]
  rw [if_pos (List.length_pos.mpr h)]

/-- One successful step peels one line off a run. -/
theorem runLines_cons_ok (ih : Bool) (st st' : PState) (l : String) (ls : List String)
    (h : stepLine ih st l = .ok st') :
    runLines ih st (l :: ls) = runLines ih st' ls := by
  show (match stepLine ih st l with
    | .ok st2 => runLines ih st2 ls
    | .error e => .error e) = _
  rw [h]

/-- Reading a block of header-keyword lines with `capture_headers` on
appends them all and leaves the machine in `HEADER` (unless the block is
empty). -/
theorem runLines_headers :
    ∀ (H : List String), (∀ x ∈ H, isKeyword x = true) → ∀ st : PState,
      runLines false st H =
        .ok ⟨if H.isEmpty then st.status else .HEADER, st.pending,
             ⟨st.doc.headers ++ H, st.doc.snapshots⟩⟩ := by
  intro H
  induction H with
  | nil =>
    intro _ st
    simp [runLines]
  | cons x H ih =>
    intro hH st
    have hx : isKeyword x = true := hH x (by simp)
    have hstep : stepLine false st x =
        .ok ⟨.HEADER, st.pending, ⟨st.doc.headers ++ [x], st.doc.snapshots⟩⟩ := by
      simp [stepLine, hx]
    rw [runLines_cons_ok false st _ x H hstep,
        ih (fun y hy => hH y (by simp [hy])) ⟨.HEADER, st.pending,
          ⟨st.doc.headers ++ [x], st.doc.snapshots⟩⟩]
    by_cases hHe : H.isEmpty <;> simp [hHe]

/-- Reading good body lines in `SNAPSHOT_CONTENT` appends them to the
pending snapshot and folds the `time=` updates. -/
theorem runLines_body :
    ∀ (bs : List String), BodyGood bs →
      ∀ (t : Nat) (cs : List String) (doc : MassifFile),
        runLines false ⟨.SNAPSHOT_CONTENT, some ⟨t, cs⟩, doc⟩ bs =
          .ok ⟨.SNAPSHOT_CONTENT,
               some ⟨bs.foldl (fun a l => (timeOf l).getD a) t, cs ++ bs⟩, doc⟩ := by
  intro bs
  induction bs with
  | nil =>
    intro _ t cs doc
    simp [runLines]
  | cons b bs ih =>
    intro hb t cs doc
    obtain ⟨hkb, hmb⟩ := hb b (by simp)
    have hstep : stepLine false ⟨.SNAPSHOT_CONTENT, some ⟨t, cs⟩, doc⟩ b =
        .ok ⟨.SNAPSHOT_CONTENT, some ⟨(timeOf b).getD t, cs ++ [b]⟩, doc⟩ := by
      simp [stepLine, hkb, hmb]
    rw [runLines_cons_ok false _ _ b bs hstep,
        ih (fun y hy => hb y (by simp [hy])) ((timeOf b).getD t) (cs ++ [b]) doc]
    simp

/-- Reading the serialized blocks of a good snapshot list from a
header-or-content state with a committable pending snapshot appends
exactly that list (pending commits included). -/
theorem runLines_blocks :
    ∀ (L : List Snapshot), (∀ s ∈ L, GoodSnap s) →
      ∀ (i : Nat) (st : PState),
        (st.status = .HEADER ∨ st.status = .SNAPSHOT_CONTENT) →
        (∀ s0, st.pending = some s0 → s0.contents ≠ []) →
        ∃ st', runLines false st (writeSnapshots i L) = .ok st' ∧
          st'.doc.headers = st.doc.headers ∧
          st'.doc.snapshots ++ pendCommit st'.pending =
            st.doc.snapshots ++ pendCommit st.pending ++ L ∧
          (st'.status = .HEADER ∨ st'.status = .SNAPSHOT_CONTENT) ∧
          (∀ s0, st'.pending = some s0 → s0.contents ≠ []) := by
  intro L
  induction L with
  | nil =>
    intro _ i st h1 h2
    exact ⟨st, rfl, rfl, by simp, h1, h2⟩
  | cons s L ihL =>
    intro hgood i st hstat hpne
    have hs : GoodSnap s := hgood s (by simp)
    have hcond : (st.status = .HEADER ∨ st.status = .SNAPSHOT_CONTENT) ∧
        (snapshotMark : String) = snapshotMark := ⟨hstat, rfl⟩
    have hstep1 : stepLine false st snapshotMark =
        .ok ⟨.SNAPSHOT_MARK, none,
             ⟨st.doc.headers, st.doc.snapshots ++ pendCommit st.pending⟩⟩ := by
      rcases hp : st.pending with _ | p
      · simp [stepLine, isKeyword_mark, hcond, hp, pendCommit]
      · by_cases hl : p.contents.length > 0 <;>
          simp [stepLine, isKeyword_mark, hcond, hp, pendCommit, hl]
    have hstep2 : stepLine false
        ⟨.SNAPSHOT_MARK, none, ⟨st.doc.headers, st.doc.snapshots ++ pendCommit st.pending⟩⟩
        ("snapshot=" ++ natToStr i) =
        .ok ⟨.SNAPSHOT_NAME, none,
             ⟨st.doc.headers, st.doc.snapshots ++ pendCommit st.pending⟩⟩ := by
      simp [stepLine, isKeyword_idx i, hasSnapshotName_idx i]
    have hstep3 : stepLine false
        ⟨.SNAPSHOT_NAME, none, ⟨st.doc.headers, st.doc.snapshots ++ pendCommit st.pending⟩⟩
        snapshotMark =
        .ok ⟨.SNAPSHOT_CONTENT, some ⟨0, []⟩,
             ⟨st.doc.headers, st.doc.snapshots ++ pendCommit st.pending⟩⟩ := by
      simp [stepLine, isKeyword_mark]
    have hbody := runLines_body s.contents hs.2.1 0 []
      ⟨st.doc.headers, st.doc.snapshots ++ pendCommit st.pending⟩
    have hsnap : (⟨s.contents.foldl (fun a l => (timeOf l).getD a) 0, [] ++ s.contents⟩ :
        Snapshot) = s := by
      cases s with
      | mk t cs =>
        simp only [List.nil_append]
        have ht : computeTime cs = t := hs.2.2.symm
        rw [← ht]
        rfl
    have hws : writeSnapshots i (s :: L) =
        snapshotMark :: ("snapshot=" ++ natToStr i) :: snapshotMark ::
          (s.contents ++ writeSnapshots (i + 1) L) := by
      simp [writeSnapshots, writeSnapshot]
    rw [hws, runLines_cons_ok false _ _ _ _ hstep1, runLines_cons_ok false _ _ _ _ hstep2,
        runLines_cons_ok false _ _ _ _ hstep3,
        runLines_append false s.contents _ _ hbody (writeSnapshots (i + 1) L), hsnap]
    obtain ⟨st', hrun', hh', hsn', hst', hpne'⟩ :=
      ihL (fun x hx => hgood x (by simp [hx])) (i + 1)
        ⟨.SNAPSHOT_CONTENT, some s,
         ⟨st.doc.headers, st.doc.snapshots ++ pendCommit st.pending⟩⟩
        (Or.inr rfl)
        (fun s0 hs0 => by
          injection hs0 with h'
          rw [← h']
          exact hs.1)
    refine ⟨st', hrun', hh', ?_, hst', hpne'⟩
    rw [hsn', pendCommit_some_ne s hs.1]
    simp

/-- Reparsing a serialized good document recovers the headers and exactly
the serialized snapshot list. -/
theorem serialize_reparse (D : MassifFile) (hD : GoodDoc D) (L : List Snapshot)
    (hL : ∀ s ∈ L, GoodSnap s) (hLh : L ≠ [] → D.headers ≠ []) :
    appendLines false ⟨[], []⟩ (D.headers ++ writeSnapshots 0 L) = (⟨D.headers, L⟩, 0) := by
  by_cases hHe : D.headers.isEmpty
  · have hh : D.headers = [] := List.isEmpty_iff.mp hHe
    have hl : L = [] := by
      by_contra hc
      exact hLh hc hh
    rw [hh, hl]
    rfl
  · have hst1 : runLines false ⟨.NONE, none, ⟨[], []⟩⟩ D.headers =
        .ok ⟨.HEADER, none, ⟨D.headers, []⟩⟩ := by
      rw [runLines_headers D.headers hD.1 ⟨.NONE, none, ⟨[], []⟩⟩]
      simp [hHe]
    obtain ⟨st', hrun', hh', hsn', _, _⟩ :=
      runLines_blocks L hL 0 ⟨.HEADER, none, ⟨D.headers, []⟩⟩ (Or.inl rfl)
        (fun s0 hs0 => by cases hs0)
    have hfull : runLines false ⟨.NONE, none, ⟨[], []⟩⟩ (D.headers ++ writeSnapshots 0 L) =
        .ok st' := by
      rw [runLines_append false D.headers _ _ hst1 (writeSnapshots 0 L), hrun']
    unfold appendLines
    rw [hfull]
    show (finishP st', 0) = _
    rw [finishP_eq, hsn', hh']
    simp [pendCommit]

/-- C5: for a document produced by the combiner, serializing it and
parsing the output back into a fresh document yields the same multiset of
(chronological key, body) pairs. -/
theorem c5_round_trip (srcs : List Source) (D sortedD : MassifFile) (out : List String)
    (hD : D = (addAll ⟨[], []⟩ srcs).1) (hw : write D = .ok (sortedD, out)) :
    ((add ⟨[], []⟩ (some out)).1.snapshots.map (fun s => (s.time, s.contents))).Perm
      (D.snapshots.map (fun s => (s.time, s.contents))) := by
  have hgood : GoodDoc D := by
    rw [hD]
    exact addAll_good ⟨[], []⟩ srcs goodDoc_empty
  obtain ⟨hd, hout⟩ := write_ok D sortedD out hw
  have hperm : (sortSnapshots D.snapshots).Perm D.snapshots :=
    List.perm_insertionSort timeLe D.snapshots
  have hLgood : ∀ s ∈ sortSnapshots D.snapshots, GoodSnap s :=
    fun s hs => hgood.2.1 s (hperm.mem_iff.mp hs)
  have hLh : sortSnapshots D.snapshots ≠ [] → D.headers ≠ [] := by
    intro hne
    refine hgood.2.2 (fun hcon => hne ?_)
    rw [hcon]
    rfl
  have hadd : add ⟨[], []⟩ (some out) = (⟨D.headers, sortSnapshots D.snapshots⟩, 0) := by
    rw [hout]
    exact serialize_reparse D hgood (sortSnapshots D.snapshots) hLgood hLh
  rw [hadd]
  exact hperm.map _

theorem c5_witness :
    ((MassifFile.mk ["desc: x"] [Snapshot.mk 100 ["time=100", "mem_heap_B=10"]]) =
        (addAll ⟨[], []⟩ [some ["desc: x", "#-----------", "snapshot=0", "#-----------",
          "time=100", "mem_heap_B=10"]]).1) ∧
      (write (MassifFile.mk ["desc: x"] [Snapshot.mk 100 ["time=100", "mem_heap_B=10"]]) =
        .ok (⟨["desc: x"], [⟨100, ["time=100", "mem_heap_B=10"]⟩]⟩,
          ["desc: x", "#-----------", "snapshot=0", "#-----------",
           "time=100", "mem_heap_B=10"])) ∧
      ((add ⟨[], []⟩ (some ["desc: x", "#-----------", "snapshot=0", "#-----------",
          "time=100", "mem_heap_B=10"])).1.snapshots.map
            (fun s => (s.time, s.contents))).Perm
        ((MassifFile.mk ["desc: x"] [Snapshot.mk 100 ["time=100", "mem_heap_B=10"]]).snapshots.map
          (fun s => (s.time, s.contents))) :=
  ⟨rfl, rfl,
    c5_round_trip
      [some ["desc: x", "#-----------", "snapshot=0", "#-----------",
        "time=100", "mem_heap_B=10"]]
      (MassifFile.mk ["desc: x"] [Snapshot.mk 100 ["time=100", "mem_heap_B=10"]])
      (MassifFile.mk ["desc: x"] [Snapshot.mk 100 ["time=100", "mem_heap_B=10"]])
      ["desc: x", "#-----------", "snapshot=0", "#-----------",
       "time=100", "mem_heap_B=10"]
      rfl rfl⟩

end MassifCombine
